import Mathlib

/-!
Verification development for the in-process publish/subscribe message broker
(`message_broker/main.py`).  The Python source is shallowly embedded:

* Python values that can occur in a message dict are modelled by `PyVal`,
  with Python truthiness (`truthy`) and the `is None` test (`isNoneVal`).
* A message dict is `RawMsg`: the three fields `topic`, `data`, `origin`,
  each `Option PyVal` (`none` = key absent; `getField` models
  `message.get(key, None)`).
* `publish` models `MessageBroker.publish`: the validation guard
  `not message.get('topic', None) or not message.get('data', None) or
  not isinstance(message.get('topic'), str)`, the unconditional put on the
  inbound queue, and the conditional put on the outbound network queue
  (`if message.get('origin') is None: if self._networking_enabled: ...`).
* The dispatch loop's topic match `re.match(topic_pattern.replace('*','.+?'),
  msg_topic)` is embedded by compiling the pattern characters to regex
  tokens (`RTok`) and running a backtracking matcher `rmatch` anchored at
  the start of the topic and free to stop before its end, exactly as
  `re.match` does; the regex is compiled without `re.DOTALL`, so the `.`
  of the pattern and the `.+?` produced from `*` match any character
  except a newline.  The embedding is faithful for patterns whose
  characters are ordinary literals plus `.` and `*` (captured by
  `plainPattern`); a pattern holding other regex metacharacters is live
  regex syntax to the code and outside this model.
* The registry `self._topics` (dict of dicts, insertion ordered) is an
  insertion-ordered association list `Registry`; `subscribe`/`unsubscribe`
  mirror the dict updates of the Python methods.
* One pass of the dispatch loop over one message is `dispatchMessage`; a
  drain of the queued messages is `drainQueue`.  Callbacks are opaque
  values of a type `κ` together with an oracle `run : κ → PyVal → Option ε`
  (`none` = the call returns, `some e` = the call raises `e`).  The
  Python loop guards the body only with `except queue.Empty`, so a raised
  callback exception propagates and kills the worker thread: the model
  returns the invocations made so far paired with `some e`.
-/

namespace MessageBroker

/-- A Python value as it can appear in a message dict field. -/
inductive PyVal : Type where
  | str (s : String)
  | int (n : Int)
  | bool (b : Bool)
  | none
  | list (n : Nat)
  | dict (n : Nat)

/-- Python truthiness of a `PyVal` (`list`/`dict` carry just their length,
which is all truthiness and the broker ever inspect). -/
def truthy : PyVal → Bool
  | .str s => !(s == "")
  | .int n => !(n == 0)
  | .bool b => b
  | .none => false
  | .list n => !(n == 0)
  | .dict n => !(n == 0)

/-- Python `is None` on a field value. -/
def isNoneVal : PyVal → Bool
  | .none => true
  | _ => false

/-- Python `isinstance(v, str)`. -/
def isStr : PyVal → Bool
  | .str _ => true
  | _ => false

/-- A message dict: each field is absent (`Option.none`) or holds a value. -/
structure RawMsg where
  topic : Option PyVal
  data : Option PyVal
  origin : Option PyVal

/-- `message.get(key, None)`: an absent key reads as Python `None`. -/
def getField (f : Option PyVal) : PyVal :=
  f.getD PyVal.none

/-- The validation guard of `publish` (negated): the message is kept iff
`topic` is truthy, `data` is truthy, and `topic` is a `str`. -/
def validMsg (m : RawMsg) : Bool :=
  truthy (getField m.topic) && truthy (getField m.data) && isStr (getField m.topic)

/-- The queues and wake flag touched by `publish`. -/
structure PubState where
  qin : List RawMsg
  qout : List RawMsg
  wake : Bool

/-- `MessageBroker.publish`: an invalid message is discarded (logged) and the
method returns with the state untouched; a valid one is always put on the
inbound queue, is put on the outbound network queue iff its `origin` is
`None` and networking is enabled, and the wake event is set. -/
def publish (net : Bool) (st : PubState) (m : RawMsg) : PubState :=
  if validMsg m then
    { qin := st.qin ++ [m],
      qout := if isNoneVal (getField m.origin) && net then st.qout ++ [m] else st.qout,
      wake := true }
  else st

/-! ### The topic matcher -/

/-- Regex tokens generated by `topic_pattern.replace('*', '.+?')`: a literal
character, `.` (any one character), and `.+?` (one or more characters,
non-greedy) coming from `*`. -/
inductive RTok : Type where
  | lit (c : Char)
  | any
  | plus
deriving DecidableEq

/-- Compile the pattern string: `*` becomes the `.+?` token, `.` the
any-character token, every other character a literal.  Faithful to the
Python regex for patterns without further metacharacters (`plainPattern`). -/
def compilePattern : List Char → List RTok
  | [] => []
  | c :: cs =>
    (if c = '*' then RTok.plus else if c = '.' then RTok.any else RTok.lit c)
      :: compilePattern cs

/-- Backtracking matcher for the compiled tokens, anchored at the start of
the input and allowed to stop before its end — the acceptance behaviour of
`re.match`.  The regex is compiled without `re.DOTALL`, so `.` (and hence
the `.+?` produced from `*`) matches any character except a newline.  For
a bare existence test, non-greedy `.+?` accepts exactly the same inputs as
greedy `.+`, so the disjunction below is faithful. -/
def rmatch : List RTok → List Char → Bool
  | [], _ => true
  | _ :: _, [] => false
  | t :: ts, x :: xs =>
    match t with
    | .lit c => x == c && rmatch ts xs
    | .any => x != '\n' && rmatch ts xs
    | .plus => x != '\n' && (rmatch ts xs || rmatch (RTok.plus :: ts) xs)

/-- The dispatch loop's test
`re.match(topic_pattern.replace('*', '.+?'), msg_topic)`. -/
def topicMatches (pattern topic : String) : Bool :=
  rmatch (compilePattern pattern.data) topic.data

/-- Characters the regex engine treats literally, plus `.` and `*`: the part
of the pattern alphabet on which the embedding is faithful. -/
def plainChar (c : Char) : Bool :=
  c.isAlphanum || c = '.' || c = '*' || c = '_' || c = '-' || c = '/' || c = ' '

/-- Pattern strings covered by the embedding. -/
def plainPattern (p : String) : Bool :=
  p.data.all plainChar

/-- Reference semantics of a compiled token list consuming exactly the
character list `s`: a literal consumes itself, `.` consumes any one
character other than a newline (no `re.DOTALL`), and the `*` token
consumes one or more characters, none of them a newline. -/
inductive SegMatch : List RTok → List Char → Prop where
  | nil : SegMatch [] []
  | lit (c : Char) (ts : List RTok) (xs : List Char) :
      SegMatch ts xs → SegMatch (RTok.lit c :: ts) (c :: xs)
  | any (c : Char) (ts : List RTok) (xs : List Char) :
      c ≠ '\n' → SegMatch ts xs → SegMatch (RTok.any :: ts) (c :: xs)
  | plusOne (c : Char) (ts : List RTok) (xs : List Char) :
      c ≠ '\n' → SegMatch ts xs → SegMatch (RTok.plus :: ts) (c :: xs)
  | plusMore (c : Char) (ts : List RTok) (xs : List Char) :
      c ≠ '\n' → SegMatch (RTok.plus :: ts) xs → SegMatch (RTok.plus :: ts) (c :: xs)

/-- Matching for star-free patterns, stated directly on the characters: the
topic must start with a block of the pattern's length agreeing with the
pattern at every position, a `.` in the pattern matching any single
character except a newline. -/
def noStarMatch : List Char → List Char → Bool
  | [], _ => true
  | _ :: _, [] => false
  | c :: ps, x :: xs =>
    (if c = '.' then x != '\n' else x == c) && noStarMatch ps xs

/-! ### The topic registry -/

variable {κ ε : Type}

/-- `self._topics`: a Python dict from topic pattern to a dict from
subscriber id to callback, embedded as insertion-ordered association lists
(dict iteration order is insertion order, and the dispatch loop iterates). -/
abbrev Registry (κ : Type) : Type :=
  List (String × List (String × κ))

/-- `self._topics[topic][subscriber_id] = callback` on the inner dict: an
existing key keeps its position and gets the new value, a new key is
appended. -/
def updateSubs : List (String × κ) → String → κ → List (String × κ)
  | [], sid, cb => [(sid, cb)]
  | (s, c) :: rest, sid, cb =>
    if s = sid then (s, cb) :: rest else (s, c) :: updateSubs rest sid cb

/-- `MessageBroker.subscribe` (with an explicit subscriber id): create the
pattern's dict if absent, then insert or overwrite the id's callback. -/
def subscribe : Registry κ → String → String → κ → Registry κ
  | [], pat, sid, cb => [(pat, [(sid, cb)])]
  | (p, subs) :: rest, pat, sid, cb =>
    if p = pat then (p, updateSubs subs sid cb) :: rest
    else (p, subs) :: subscribe rest pat sid cb

/-- `del d[subscriber_id]` on the inner dict (no-op when the key is absent,
matching the membership test `subscriber_id in self._topics[topic]`). -/
def removeSub : List (String × κ) → String → List (String × κ)
  | [], _ => []
  | (s, c) :: rest, sid => if s = sid then rest else (s, c) :: removeSub rest sid

/-- `MessageBroker.unsubscribe` (with an explicit subscriber id): when the
pattern exists, delete the id's entry from its dict if present; the pattern
key itself is never removed, and a missing pattern or id is a no-op. -/
def unsubscribe : Registry κ → String → String → Registry κ
  | [], _, _ => []
  | (p, subs) :: rest, pat, sid =>
    if p = pat then (p, removeSub subs sid) :: rest
    else (p, subs) :: unsubscribe rest pat sid

/-- Dict lookup `self._topics.get(pat)`. -/
def findPat : Registry κ → String → Option (List (String × κ))
  | [], _ => none
  | (p, subs) :: rest, pat => if p = pat then some subs else findPat rest pat

/-- Dict lookup by subscriber id in an inner dict. -/
def findSub : List (String × κ) → String → Option κ
  | [], _ => none
  | (s, c) :: rest, sid => if s = sid then some c else findSub rest sid

/-- The callback registered for a `(pattern, subscriber_id)` pair, if any. -/
def lookupSub (reg : Registry κ) (pat sid : String) : Option κ :=
  match findPat reg pat with
  | some subs => findSub subs sid
  | none => none

/-- Well-formedness every state reachable through Python dicts has: no
duplicate pattern keys and no duplicate subscriber ids under one pattern. -/
abbrev WF (reg : Registry κ) : Prop :=
  (reg.map Prod.fst).Nodup ∧ ∀ e ∈ reg, (e.2.map Prod.fst).Nodup

/-! ### The dispatch loop -/

/-- A message as the dispatch loop reads it: `message['topic']` (a `str`
for every message that passed validation) and `message['data']`. -/
structure Msg where
  topic : String
  data : PyVal

/-- One callback invocation made by the dispatch loop: which pattern it was
found under, the subscriber id, the callback value, and the argument
(`message['data']`) it was called with. -/
structure Invocation (κ : Type) where
  pattern : String
  sub : String
  cb : κ
  arg : PyVal

/-- `for callback in self._topics[topic_pattern].values(): callback(...)`.
`run cb d = some e` means the call raises `e`: the exception is not caught
(only `queue.Empty` is) and aborts the iteration after that invocation. -/
def runCallbacks (run : κ → PyVal → Option ε) (pat : String) :
    List (String × κ) → PyVal → List (Invocation κ) × Option ε
  | [], _ => ([], none)
  | (sid, cb) :: rest, d =>
    match run cb d with
    | some e => ([⟨pat, sid, cb, d⟩], some e)
    | none =>
      let r := runCallbacks run pat rest d
      (⟨pat, sid, cb, d⟩ :: r.1, r.2)

/-- The dispatch of one message: scan the patterns in registry order, and
under every pattern matching the topic invoke every callback with the data.
An uncaught callback exception aborts the scan. -/
def dispatchMessage (run : κ → PyVal → Option ε) :
    Registry κ → Msg → List (Invocation κ) × Option ε
  | [], _ => ([], none)
  | (pat, subs) :: rest, m =>
    if topicMatches pat m.topic then
      match runCallbacks run pat subs m.data with
      | (tr, some e) => (tr, some e)
      | (tr, none) =>
        let r := dispatchMessage run rest m
        (tr ++ r.1, r.2)
    else dispatchMessage run rest m

/-- The inner `while not self._message_queue_in.empty()` drain: messages are
dispatched in FIFO order; an uncaught callback exception propagates out of
`_process_messages` and kills the worker thread (`some e`), leaving the
remaining messages undispatched. -/
def drainQueue (run : κ → PyVal → Option ε) (reg : Registry κ) :
    List Msg → List (Invocation κ) × Option ε
  | [] => ([], none)
  | m :: rest =>
    match dispatchMessage run reg m with
    | (tr, some e) => (tr, some e)
    | (tr, none) =>
      let r := drainQueue run reg rest
      (tr ++ r.1, r.2)

/-- The invocations of an exception-free dispatch of one message, written
directly: for every matching pattern, one invocation per registered
subscriber, in registry order. -/
def dispatchTrace (reg : Registry κ) (m : Msg) : List (Invocation κ) :=
  match reg with
  | [] => []
  | (pat, subs) :: rest =>
    (if topicMatches pat m.topic
      then subs.map (fun x => ⟨pat, x.1, x.2, m.data⟩) else [])
      ++ dispatchTrace rest m

/-! ### Broker lifecycle -/

/-- The broker state touched by `stop` and `_initialize`: the `_running`
flag read by the dispatch loop's `while` guard, the topic registry, and the
wake event. -/
structure Broker (κ : Type) where
  running : Bool
  topics : Registry κ
  wakeEvent : Bool

/-- `_initialize`: a fresh broker runs with an empty registry. -/
def initBroker : Broker κ :=
  { running := true, topics := [], wakeEvent := false }

/-- `MessageBroker.__new__` with `singleton=True`: return the recorded
instance when there is one, otherwise construct and initialize a fresh one. -/
def getInstance (inst : Option (Broker κ)) : Broker κ :=
  match inst with
  | some b => b
  | none => initBroker

/-- The `while self._running` guard at the top of the dispatch loop: the
worker thread exits (and so stops being alive) as soon as it is false. -/
def loopContinues (b : Broker κ) : Bool :=
  b.running

/-- `MessageBroker.stop`: clear the running flag, set the wake event (so the
joined worker exits its wait), clear the registry, and clear the class-level
singleton reference.  Returns the broker's final state and the new value of
`MessageBroker._instance`. -/
def stop (b : Broker κ) : Broker κ × Option (Broker κ) :=
  ({ b with running := false, wakeEvent := true, topics := [] }, none)

/-! ### Matcher lemmas -/

/-- Soundness and completeness of the backtracking matcher: it accepts the
topic iff some decomposition `topic = s ++ u` lets the compiled tokens
consume exactly `s` — matching is anchored at the start and never required
to reach the end. -/
theorem rmatch_iff (xs : List Char) : ∀ ts : List RTok,
    rmatch ts xs = true ↔ ∃ s u, xs = s ++ u ∧ SegMatch ts s := by
  induction xs with
  | nil =>
    intro ts
    cases ts with
    | nil =>
      simp only [rmatch, true_iff]
      exact ⟨[], [], rfl, SegMatch.nil⟩
    | cons t ts =>
      refine iff_of_false (by simp [rmatch]) ?_
      rintro ⟨s, u, hsu, hm⟩
      have hs : s = [] := by
        cases s with
        | nil => rfl
        | cons a s' => simp at hsu
      subst hs
      cases hm
  | cons x xs ih =>
    intro ts
    cases ts with
    | nil =>
      simp only [rmatch, true_iff]
      exact ⟨[], x :: xs, rfl, SegMatch.nil⟩
    | cons t ts =>
      cases t with
      | lit c =>
        simp only [rmatch, Bool.and_eq_true, beq_iff_eq]
        constructor
        · rintro ⟨rfl, h⟩
          obtain ⟨s, u, rfl, hm⟩ := (ih ts).mp h
          exact ⟨x :: s, u, rfl, SegMatch.lit x ts s hm⟩
        · rintro ⟨s, u, hsu, hm⟩
          cases hm with
          | lit c ts s' hm' =>
            rw [List.cons_append] at hsu
            obtain ⟨rfl, rfl⟩ : x = c ∧ xs = s' ++ u := by
              exact ⟨(List.cons.injEq ..).mp hsu |>.1, (List.cons.injEq ..).mp hsu |>.2⟩
            exact ⟨rfl, (ih ts).mpr ⟨s', u, rfl, hm'⟩⟩
      | any =>
        simp only [rmatch, Bool.and_eq_true, bne_iff_ne]
        constructor
        · rintro ⟨hne, h⟩
          obtain ⟨s, u, rfl, hm⟩ := (ih ts).mp h
          exact ⟨x :: s, u, rfl, SegMatch.any x ts s hne hm⟩
        · rintro ⟨s, u, hsu, hm⟩
          cases hm with
          | any c ts s' hne hm' =>
            rw [List.cons_append] at hsu
            obtain ⟨rfl, rfl⟩ : x = c ∧ xs = s' ++ u := by
              exact ⟨(List.cons.injEq ..).mp hsu |>.1, (List.cons.injEq ..).mp hsu |>.2⟩
            exact ⟨hne, (ih ts).mpr ⟨s', u, rfl, hm'⟩⟩
      | plus =>
        simp only [rmatch, Bool.and_eq_true, Bool.or_eq_true, bne_iff_ne]
        constructor
        · rintro ⟨hne, h | h⟩
          · obtain ⟨s, u, rfl, hm⟩ := (ih ts).mp h
            exact ⟨x :: s, u, rfl, SegMatch.plusOne x ts s hne hm⟩
          · obtain ⟨s, u, rfl, hm⟩ := (ih (RTok.plus :: ts)).mp h
            exact ⟨x :: s, u, rfl, SegMatch.plusMore x ts s hne hm⟩
        · rintro ⟨s, u, hsu, hm⟩
          cases hm with
          | plusOne c ts s' hne hm' =>
            rw [List.cons_append] at hsu
            obtain ⟨rfl, rfl⟩ : x = c ∧ xs = s' ++ u := by
              exact ⟨(List.cons.injEq ..).mp hsu |>.1, (List.cons.injEq ..).mp hsu |>.2⟩
            exact ⟨hne, Or.inl ((ih ts).mpr ⟨s', u, rfl, hm'⟩)⟩
          | plusMore c ts s' hne hm' =>
            rw [List.cons_append] at hsu
            obtain ⟨rfl, rfl⟩ : x = c ∧ xs = s' ++ u := by
              exact ⟨(List.cons.injEq ..).mp hsu |>.1, (List.cons.injEq ..).mp hsu |>.2⟩
            exact ⟨hne, Or.inr ((ih (RTok.plus :: ts)).mpr ⟨s', u, rfl, hm'⟩)⟩

/-- On star-free patterns the matcher reduces to the pointwise check
`noStarMatch`. -/
theorem rmatch_noStar (p : List Char) (h : ('*' : Char) ∉ p) :
    ∀ t : List Char, rmatch (compilePattern p) t = noStarMatch p t := by
  induction p with
  | nil => intro t; simp [compilePattern, rmatch, noStarMatch]
  | cons c ps ih =>
    intro t
    have hc : c ≠ '*' := fun hcc => h (hcc ▸ List.mem_cons_self c ps)
    have hps : ('*' : Char) ∉ ps := fun hm => h (List.mem_cons_of_mem c hm)
    cases t with
    | nil =>
      by_cases hdot : c = '.'
      · subst hdot
        simp [compilePattern, rmatch, noStarMatch]
      · simp [compilePattern, rmatch, noStarMatch, hc, hdot]
    | cons x xs =>
      by_cases hdot : c = '.'
      · subst hdot
        simp [compilePattern, rmatch, noStarMatch, ih hps]
      · have hbeq : (c == '.') = false := by simp [hdot]
        simp [compilePattern, rmatch, noStarMatch, hc, hdot, hbeq, ih hps]

/-- Claim C1 (counterexample): a star-free pattern does not match only the
identical topic.  The dispatch loop's match of pattern `"a.b"` also accepts
the topic `"a.bc"` (prefix matching) and, because `.` stays a regex
wildcard, the topic `"axb"`, although neither equals the pattern. -/
theorem starFree_match_not_exact_cex :
    topicMatches "a.b" "a.bc" = true ∧ ("a.bc" : String) ≠ "a.b" ∧
      topicMatches "a.b" "axb" = true ∧ ("axb" : String) ≠ "a.b" := by
  refine ⟨by decide, by decide, by decide, by decide⟩

/-- Claim C1 (amended): for every pattern made of plain characters that
contains no `*`, the dispatch loop's match succeeds iff the topic starts
with a block of the pattern's length agreeing with the pattern at every
position, a `.` in the pattern matching any single character except a
newline (the regex is compiled without `re.DOTALL`) — exact equality with
the pattern is sufficient but not necessary. -/
theorem starFree_match_characterization (p t : String)
    (h1 : plainPattern p = true) (h2 : ('*' : Char) ∉ p.data) :
    topicMatches p t = noStarMatch p.data t.data :=
  rmatch_noStar p.data h2 t.data

/-- Witness for `starFree_match_characterization` at pattern `"a.b"` and
topic `"a.bc"`. -/
theorem starFree_match_characterization_witness :
    plainPattern "a.b" = true ∧ ('*' : Char) ∉ "a.b".data ∧
      topicMatches "a.b" "a.bc" = noStarMatch "a.b".data "a.bc".data :=
  ⟨by decide, by decide,
    starFree_match_characterization "a.b" "a.bc" (by decide) (by decide)⟩

/-- Claim C4 (counterexample): `*` does not match one-or-more *arbitrary*
characters.  The topic `"\n"` is a non-empty (one-character) topic, so
under the claim's reading pattern `"*"` would match it, but the compiled
regex `.+?` never matches a newline (no `re.DOTALL`) and the dispatch
loop's match fails. -/
theorem star_match_newline_cex :
    ("\n" : String) ≠ "" ∧ topicMatches "*" "\n" = false := by
  refine ⟨by decide, by decide⟩

/-- Claim C4 (amended): for every pattern containing `*` whose characters
are ordinary literals plus `.` and `*` (any other regex metacharacter is
live regex syntax to the code and out of scope), the dispatch loop's match
succeeds iff the compiled tokens consume some block `s` at the very start
of the topic (`t.data = s ++ u`), where the `*` token consumes one or more
characters none of which is a newline (`SegMatch.plusOne`/`plusMore`) and
`.` consumes one non-newline character — anchored at the start, never
required to consume the whole topic (the leftover `u` is arbitrary);
non-greediness of `.+?` only changes which match is found first, not
whether one exists.  In particular `"a.*"` matches `"a.b"` and `"a.bc"`
but not `"x.a.b"`. -/
theorem star_match_characterization (p t : String)
    (h1 : plainPattern p = true) (h2 : ('*' : Char) ∈ p.data) :
    (topicMatches p t = true ↔
      ∃ s u, t.data = s ++ u ∧ SegMatch (compilePattern p.data) s)
    ∧ topicMatches "a.*" "a.b" = true ∧ topicMatches "a.*" "a.bc" = true
    ∧ topicMatches "a.*" "x.a.b" = false :=
  ⟨rmatch_iff t.data (compilePattern p.data), by decide, by decide, by decide⟩

/-- Witness for `star_match_characterization` at pattern `"a.*"` and topic
`"a.bc"`. -/
theorem star_match_characterization_witness :
    plainPattern "a.*" = true ∧ ('*' : Char) ∈ "a.*".data ∧
      ((topicMatches "a.*" "a.bc" = true ↔
        ∃ s u, "a.bc".data = s ++ u ∧ SegMatch (compilePattern "a.*".data) s)
      ∧ topicMatches "a.*" "a.b" = true ∧ topicMatches "a.*" "a.bc" = true
      ∧ topicMatches "a.*" "x.a.b" = false) :=
  ⟨by decide, by decide,
    star_match_characterization "a.*" "a.bc" (by decide) (by decide)⟩

/-! ### Registry lemmas -/

theorem findSub_none_of_not_mem (subs : List (String × κ)) (sid : String)
    (h : sid ∉ subs.map Prod.fst) : findSub subs sid = none := by
  induction subs with
  | nil => rfl
  | cons e rest ih =>
    obtain ⟨s, c⟩ := e
    simp only [List.map_cons, List.mem_cons] at h
    push_neg at h
    simp [findSub, Ne.symm h.1, ih h.2]

theorem findPat_mem (reg : Registry κ) (pat : String)
    (subs : List (String × κ)) (h : findPat reg pat = some subs) :
    (pat, subs) ∈ reg := by
  induction reg with
  | nil => simp [findPat] at h
  | cons e rest ih =>
    obtain ⟨p, s⟩ := e
    by_cases hp : p = pat
    · subst hp
      have hps : findPat ((p, s) :: rest) p = some s := by simp [findPat]
      rw [hps] at h
      injection h with h
      subst h
      exact List.mem_cons_self _ _
    · simp only [findPat, if_neg hp] at h
      exact List.mem_cons_of_mem _ (ih h)

theorem findSub_updateSubs_self (subs : List (String × κ)) (sid : String) (cb : κ) :
    findSub (updateSubs subs sid cb) sid = some cb := by
  induction subs with
  | nil => simp [updateSubs, findSub]
  | cons e rest ih =>
    obtain ⟨s, c⟩ := e
    by_cases hs : s = sid
    · subst hs; simp [updateSubs, findSub]
    · simp [updateSubs, findSub, hs, ih]

theorem updateSubs_updateSubs (subs : List (String × κ)) (sid : String) (c1 c2 : κ) :
    updateSubs (updateSubs subs sid c1) sid c2 = updateSubs subs sid c2 := by
  induction subs with
  | nil => simp [updateSubs]
  | cons e rest ih =>
    obtain ⟨s, c⟩ := e
    by_cases hs : s = sid
    · subst hs; simp [updateSubs]
    · simp [updateSubs, hs, ih]

theorem subscribe_subscribe (reg : Registry κ) (pat sid : String) (c1 c2 : κ) :
    subscribe (subscribe reg pat sid c1) pat sid c2 = subscribe reg pat sid c2 := by
  induction reg with
  | nil => simp [subscribe, updateSubs]
  | cons e rest ih =>
    obtain ⟨p, subs⟩ := e
    by_cases hp : p = pat
    · subst hp; simp [subscribe, updateSubs_updateSubs]
    · simp [subscribe, hp, ih]

theorem lookupSub_subscribe_self (reg : Registry κ) (pat sid : String) (cb : κ) :
    lookupSub (subscribe reg pat sid cb) pat sid = some cb := by
  induction reg with
  | nil => simp [subscribe, lookupSub, findPat, findSub]
  | cons e rest ih =>
    obtain ⟨p, subs⟩ := e
    by_cases hp : p = pat
    · subst hp
      simp [subscribe, lookupSub, findPat, findSub_updateSubs_self]
    · simpa [subscribe, lookupSub, findPat, hp] using ih

theorem subKeys_updateSubs (subs : List (String × κ)) (sid : String) (cb : κ) :
    (updateSubs subs sid cb).map Prod.fst =
      if sid ∈ subs.map Prod.fst then subs.map Prod.fst
      else subs.map Prod.fst ++ [sid] := by
  induction subs with
  | nil => simp [updateSubs]
  | cons e rest ih =>
    obtain ⟨s, c⟩ := e
    by_cases hs : s = sid
    · subst hs; simp [updateSubs]
    · simp only [updateSubs, if_neg hs, List.map_cons, List.mem_cons, ih]
      by_cases hm : sid ∈ rest.map Prod.fst
      · simp [hm, Ne.symm hs]
      · simp [hm, Ne.symm hs]

theorem nodup_updateSubs (subs : List (String × κ)) (sid : String) (cb : κ)
    (h : (subs.map Prod.fst).Nodup) :
    ((updateSubs subs sid cb).map Prod.fst).Nodup := by
  rw [subKeys_updateSubs]
  by_cases hm : sid ∈ subs.map Prod.fst
  · simpa [hm]
  · simp [hm, List.nodup_append, h]

theorem patKeys_subscribe (reg : Registry κ) (pat sid : String) (cb : κ) :
    (subscribe reg pat sid cb).map Prod.fst =
      if pat ∈ reg.map Prod.fst then reg.map Prod.fst
      else reg.map Prod.fst ++ [pat] := by
  induction reg with
  | nil => simp [subscribe]
  | cons e rest ih =>
    obtain ⟨p, subs⟩ := e
    by_cases hp : p = pat
    · subst hp; simp [subscribe]
    · simp only [subscribe, if_neg hp, List.map_cons, List.mem_cons, ih]
      by_cases hm : pat ∈ rest.map Prod.fst
      · simp [hm, Ne.symm hp]
      · simp [hm, Ne.symm hp]

theorem mem_subscribe (reg : Registry κ) (pat sid : String) (cb : κ)
    (e : String × List (String × κ)) (he : e ∈ subscribe reg pat sid cb) :
    e ∈ reg ∨ e.2 = [(sid, cb)] ∨
      ∃ subs, (e.1, subs) ∈ reg ∧ e.2 = updateSubs subs sid cb := by
  induction reg with
  | nil =>
    simp only [subscribe, List.mem_singleton] at he
    subst he
    exact Or.inr (Or.inl rfl)
  | cons f rest ih =>
    obtain ⟨p, subs⟩ := f
    by_cases hp : p = pat
    · subst hp
      have hsub : subscribe ((p, subs) :: rest) p sid cb
          = (p, updateSubs subs sid cb) :: rest := by simp [subscribe]
      rw [hsub] at he
      rcases List.mem_cons.mp he with he | he
      · subst he
        exact Or.inr (Or.inr ⟨subs, List.mem_cons_self _ _, rfl⟩)
      · exact Or.inl (List.mem_cons_of_mem _ he)
    · have hsub : subscribe ((p, subs) :: rest) pat sid cb
          = (p, subs) :: subscribe rest pat sid cb := by simp [subscribe, hp]
      rw [hsub] at he
      rcases List.mem_cons.mp he with he | he
      · subst he; exact Or.inl (List.mem_cons_self _ _)
      · rcases ih he with h | h | ⟨s2, hs2, he2⟩
        · exact Or.inl (List.mem_cons_of_mem _ h)
        · exact Or.inr (Or.inl h)
        · exact Or.inr (Or.inr ⟨s2, List.mem_cons_of_mem _ hs2, he2⟩)

theorem wf_subscribe (reg : Registry κ) (pat sid : String) (cb : κ)
    (h : WF reg) : WF (subscribe reg pat sid cb) := by
  obtain ⟨hkeys, hentries⟩ := h
  constructor
  · rw [patKeys_subscribe]
    by_cases hm : pat ∈ reg.map Prod.fst
    · simpa [hm]
    · simp [hm, List.nodup_append, hkeys]
  · intro e he
    rcases mem_subscribe reg pat sid cb e he with h | h | ⟨subs, hmem, heq⟩
    · exact hentries e h
    · simp [h]
    · rw [heq]
      exact nodup_updateSubs subs sid cb (hentries (e.1, subs) hmem)

theorem removeSub_of_not_found (subs : List (String × κ)) (sid : String)
    (h : findSub subs sid = none) : removeSub subs sid = subs := by
  induction subs with
  | nil => rfl
  | cons e rest ih =>
    obtain ⟨s, c⟩ := e
    by_cases hs : s = sid
    · subst hs; simp [findSub] at h
    · simp only [findSub, if_neg hs] at h
      simp [removeSub, hs, ih h]

theorem findSub_removeSub_self (subs : List (String × κ)) (sid : String)
    (h : (subs.map Prod.fst).Nodup) :
    findSub (removeSub subs sid) sid = none := by
  induction subs with
  | nil => rfl
  | cons e rest ih =>
    obtain ⟨s, c⟩ := e
    simp only [List.map_cons, List.nodup_cons] at h
    by_cases hs : s = sid
    · subst hs
      simp only [removeSub, if_pos rfl]
      exact findSub_none_of_not_mem rest s h.1
    · simp [removeSub, findSub, hs, ih h.2]

theorem findSub_removeSub_other (subs : List (String × κ)) (sid s : String)
    (h : s ≠ sid) : findSub (removeSub subs sid) s = findSub subs s := by
  induction subs with
  | nil => rfl
  | cons e rest ih =>
    obtain ⟨s0, c⟩ := e
    by_cases hs : s0 = sid
    · subst hs
      simp [removeSub, findSub, Ne.symm h]
    · simp [removeSub, findSub, hs, ih]

theorem findPat_unsubscribe_self (reg : Registry κ) (pat sid : String) :
    findPat (unsubscribe reg pat sid) pat =
      (findPat reg pat).map (fun subs => removeSub subs sid) := by
  induction reg with
  | nil => rfl
  | cons e rest ih =>
    obtain ⟨p, subs⟩ := e
    by_cases hp : p = pat
    · subst hp; simp [unsubscribe, findPat]
    · simp [unsubscribe, findPat, hp, ih]

theorem findPat_unsubscribe_other (reg : Registry κ) (pat sid p : String)
    (h : p ≠ pat) : findPat (unsubscribe reg pat sid) p = findPat reg p := by
  induction reg with
  | nil => rfl
  | cons e rest ih =>
    obtain ⟨p0, subs⟩ := e
    by_cases hp : p0 = pat
    · subst hp
      simp [unsubscribe, findPat, Ne.symm h]
    · by_cases hp2 : p0 = p
      · subst hp2; simp [unsubscribe, findPat, hp]
      · simp [unsubscribe, findPat, hp, hp2, ih]

theorem unsubscribe_of_not_found (reg : Registry κ) (pat sid : String)
    (h : lookupSub reg pat sid = none) : unsubscribe reg pat sid = reg := by
  induction reg with
  | nil => rfl
  | cons e rest ih =>
    obtain ⟨p, subs⟩ := e
    by_cases hp : p = pat
    · subst hp
      simp only [lookupSub, findPat, if_pos rfl] at h
      simp [unsubscribe, removeSub_of_not_found subs sid h]
    · simp only [lookupSub, findPat, if_neg hp] at h
      simp only [unsubscribe, if_neg hp, List.cons.injEq, true_and]
      exact ih (by simpa [lookupSub] using h)

/-- Claim C6: re-subscribing the same `(pattern, subscriber_id)` with a new
callback replaces the stored one — subscribing twice leaves exactly the
state of subscribing once with the latest callback, the lookup the dispatch
loop performs yields the latest callback, and well-formedness (at most one
callback per pair) is preserved. -/
theorem subscribe_replaces (reg : Registry κ) (pat sid : String) (c1 c2 : κ) :
    subscribe (subscribe reg pat sid c1) pat sid c2 = subscribe reg pat sid c2
    ∧ lookupSub (subscribe reg pat sid c2) pat sid = some c2
    ∧ (WF reg → WF (subscribe reg pat sid c2)) :=
  ⟨subscribe_subscribe reg pat sid c1 c2,
    lookupSub_subscribe_self reg pat sid c2,
    wf_subscribe reg pat sid c2⟩

/-- Witness for `subscribe_replaces` on a concrete registry. -/
theorem subscribe_replaces_witness :
    WF [("a.*", [("s1", 1)])] ∧
      (subscribe (subscribe [("a.*", [("s1", 1)])] "a.*" "s1" 2) "a.*" "s1" 3
          = subscribe [("a.*", [("s1", 1)])] "a.*" "s1" 3
        ∧ lookupSub (subscribe [("a.*", [("s1", 1)])] "a.*" "s1" 3) "a.*" "s1"
          = some 3
        ∧ (WF [("a.*", [("s1", 1)])] →
            WF (subscribe [("a.*", [("s1", 1)])] "a.*" "s1" 3))) :=
  ⟨by decide,
    subscribe_replaces [("a.*", [("s1", 1)])] "a.*" "s1" 2 3⟩

/-- Claim C7: on a well-formed registry, `unsubscribe(pattern, sid)` leaves
no callback registered for that pair, leaves every other
`(pattern', sid')` pair's lookup unchanged, and is a state-preserving no-op
(raising nothing — it is a total function) when the pair was not
registered. -/
theorem unsubscribe_frame (reg : Registry κ) (pat sid : String) (hwf : WF reg) :
    lookupSub (unsubscribe reg pat sid) pat sid = none
    ∧ (∀ p s : String, p ≠ pat ∨ s ≠ sid →
        lookupSub (unsubscribe reg pat sid) p s = lookupSub reg p s)
    ∧ (lookupSub reg pat sid = none → unsubscribe reg pat sid = reg) := by
  refine ⟨?_, ?_, unsubscribe_of_not_found reg pat sid⟩
  · unfold lookupSub
    rw [findPat_unsubscribe_self]
    cases hfp : findPat reg pat with
    | none => rfl
    | some subs =>
      simp only [Option.map_some']
      exact findSub_removeSub_self subs sid (hwf.2 (pat, subs) (findPat_mem reg pat subs hfp))
  · intro p s hne
    by_cases hp : p = pat
    · subst hp
      have hs : s ≠ sid := hne.resolve_left (fun hc => hc rfl)
      unfold lookupSub
      rw [findPat_unsubscribe_self]
      cases hfp : findPat reg p with
      | none => rfl
      | some subs =>
        simp only [Option.map_some']
        exact findSub_removeSub_other subs sid s hs
    · unfold lookupSub
      rw [findPat_unsubscribe_other reg pat sid p hp]

/-- Witness for `unsubscribe_frame` on a concrete two-subscriber registry. -/
theorem unsubscribe_frame_witness :
    WF [("a.*", [("s1", 1), ("s2", 2)])] ∧
      (lookupSub (unsubscribe [("a.*", [("s1", 1), ("s2", 2)])] "a.*" "s1") "a.*" "s1" = none
      ∧ (∀ p s : String, p ≠ "a.*" ∨ s ≠ "s1" →
          lookupSub (unsubscribe [("a.*", [("s1", 1), ("s2", 2)])] "a.*" "s1") p s
            = lookupSub [("a.*", [("s1", 1), ("s2", 2)])] p s)
      ∧ (lookupSub [("a.*", [("s1", 1), ("s2", 2)])] "a.*" "s1" = none →
          unsubscribe [("a.*", [("s1", 1), ("s2", 2)])] "a.*" "s1"
            = [("a.*", [("s1", 1), ("s2", 2)])])) :=
  ⟨by decide,
    unsubscribe_frame [("a.*", [("s1", 1), ("s2", 2)])] "a.*" "s1"
      (by decide)⟩

/-! ### Dispatch lemmas -/

theorem findPat_none_of_not_mem (reg : Registry κ) (pat : String)
    (h : pat ∉ reg.map Prod.fst) : findPat reg pat = none := by
  induction reg with
  | nil => rfl
  | cons e rest ih =>
    obtain ⟨p, subs⟩ := e
    simp only [List.map_cons, List.mem_cons] at h
    push_neg at h
    simp [findPat, Ne.symm h.1, ih h.2]

theorem runCallbacks_ok (run : κ → PyVal → Option ε) (pat : String)
    (subs : List (String × κ)) (d : PyVal) (h : ∀ c x, run c x = none) :
    runCallbacks run pat subs d
      = (subs.map (fun x => ⟨pat, x.1, x.2, d⟩), none) := by
  induction subs with
  | nil => rfl
  | cons e rest ih =>
    obtain ⟨sid, cb⟩ := e
    simp [runCallbacks, h, ih]

theorem dispatchMessage_ok (run : κ → PyVal → Option ε) (reg : Registry κ)
    (m : Msg) (h : ∀ c x, run c x = none) :
    dispatchMessage run reg m = (dispatchTrace reg m, none) := by
  induction reg with
  | nil => rfl
  | cons e rest ih =>
    obtain ⟨pat, subs⟩ := e
    by_cases hm : topicMatches pat m.topic
    · simp [dispatchMessage, dispatchTrace, hm,
        runCallbacks_ok run pat subs m.data h, ih]
    · simp [dispatchMessage, dispatchTrace, hm, ih]

theorem dispatchTrace_arg (reg : Registry κ) (m : Msg) :
    ∀ i ∈ dispatchTrace reg m, i.arg = m.data := by
  induction reg with
  | nil => intro i hi; simp [dispatchTrace] at hi
  | cons e rest ih =>
    obtain ⟨pat, subs⟩ := e
    intro i hi
    simp only [dispatchTrace, List.mem_append] at hi
    cases hi with
    | inl hi =>
      by_cases hm : topicMatches pat m.topic
      · rw [if_pos hm] at hi
        obtain ⟨x, _, rfl⟩ := List.mem_map.mp hi
        rfl
      · rw [if_neg hm] at hi
        simp at hi
    | inr hi => exact ih i hi

theorem countP_trace_not_found (reg : Registry κ) (m : Msg) (pat sid : String)
    (h : findPat reg pat = none) :
    (dispatchTrace reg m).countP (fun i => i.pattern == pat && i.sub == sid)
      = 0 := by
  induction reg with
  | nil => rfl
  | cons e rest ih =>
    obtain ⟨p, subs⟩ := e
    by_cases hp : p = pat
    · subst hp; simp [findPat] at h
    · simp only [findPat, if_neg hp] at h
      simp only [dispatchTrace, List.countP_append, ih h, Nat.add_zero]
      by_cases hm : topicMatches p m.topic
      · rw [if_pos hm, List.countP_eq_zero]
        intro i hi
        obtain ⟨x, _, rfl⟩ := List.mem_map.mp hi
        simp [hp]
      · rw [if_neg hm]; rfl

theorem countP_sid_one (subs : List (String × κ)) (sid : String) (cb : κ)
    (hnodup : (subs.map Prod.fst).Nodup) (h : findSub subs sid = some cb) :
    subs.countP (fun x => x.1 == sid) = 1 := by
  induction subs with
  | nil => simp [findSub] at h
  | cons e rest ih =>
    obtain ⟨s, c⟩ := e
    simp only [List.map_cons, List.nodup_cons] at hnodup
    by_cases hs : s = sid
    · subst hs
      have hz : rest.countP (fun x => x.1 == s) = 0 := by
        rw [List.countP_eq_zero]
        intro a ha hq
        have ha1 : a.1 = s := by simpa using hq
        refine hnodup.1 ?_
        rw [← ha1]
        exact List.mem_map.mpr ⟨a, ha, rfl⟩
      simp [List.countP_cons, hz]
    · simp only [findSub, if_neg hs] at h
      simp [List.countP_cons, hs, ih hnodup.2 h]

theorem countP_trace_found (reg : Registry κ) (m : Msg) (pat sid : String)
    (subs : List (String × κ)) (hnodup : (reg.map Prod.fst).Nodup)
    (hfp : findPat reg pat = some subs)
    (hm : topicMatches pat m.topic = true) :
    (dispatchTrace reg m).countP (fun i => i.pattern == pat && i.sub == sid)
      = subs.countP (fun x => x.1 == sid) := by
  induction reg with
  | nil => simp [findPat] at hfp
  | cons e rest ih =>
    obtain ⟨p, s0⟩ := e
    simp only [List.map_cons, List.nodup_cons] at hnodup
    by_cases hp : p = pat
    · subst hp
      have hs0 : s0 = subs := by
        have := hfp
        simp only [findPat, if_pos rfl] at this
        injection this
      subst hs0
      have hrest : findPat rest p = none :=
        findPat_none_of_not_mem rest p hnodup.1
      simp only [dispatchTrace, hm, if_pos, List.countP_append,
        countP_trace_not_found rest m p sid hrest, Nat.add_zero]
      rw [List.countP_map]
      apply List.countP_congr
      intro x _
      simp
    · simp only [findPat, if_neg hp] at hfp
      simp only [dispatchTrace, List.countP_append, ih hnodup.2 hfp]
      by_cases hmp : topicMatches p m.topic
      · rw [if_pos hmp]
        have hz : (s0.map fun x => (⟨p, x.1, x.2, m.data⟩ : Invocation κ)).countP
            (fun i => i.pattern == pat && i.sub == sid) = 0 := by
          rw [List.countP_eq_zero]
          intro i hi
          obtain ⟨x, _, rfl⟩ := List.mem_map.mp hi
          simp [hp]
        omega
      · rw [if_neg hmp]
        simp

theorem runCallbacks_abort (run : κ → PyVal → Option ε) (pat : String)
    (pre post : List (String × κ)) (sid : String) (cb : κ) (d : PyVal) (e : ε)
    (hpre : ∀ x ∈ pre, run x.2 d = none) (hcb : run cb d = some e) :
    runCallbacks run pat (pre ++ (sid, cb) :: post) d
      = (pre.map (fun x => ⟨pat, x.1, x.2, d⟩) ++ [⟨pat, sid, cb, d⟩], some e) := by
  induction pre with
  | nil => simp [runCallbacks, hcb]
  | cons x xs ih =>
    have h1 : run x.2 d = none := hpre x (List.mem_cons_self _ _)
    have h2 : ∀ y ∈ xs, run y.2 d = none :=
      fun y hy => hpre y (List.mem_cons_of_mem _ hy)
    obtain ⟨s, c⟩ := x
    simp [runCallbacks, h1, ih h2]

/-- Claim C2 (counterexample): callback exceptions are not isolated.  With
subscribers `s1` and `s2` both registered under pattern `"t"`, callback 1
(of `s1`) raising on the first of two queued messages yields exactly one
invocation: `s2` is never invoked for that message, nothing is dispatched
for the second message, and the loop aborts with the exception (`some 0`),
killing the worker thread — only `queue.Empty` is caught. -/
theorem callback_raise_aborts_cex :
    drainQueue (fun (k : Nat) (_ : PyVal) => if k == 1 then some (0 : Nat) else none)
        [("t", [("s1", 1), ("s2", 2)])]
        [Msg.mk "t" (PyVal.str "x"), Msg.mk "t" (PyVal.str "x")]
      = ([Invocation.mk "t" "s1" 1 (PyVal.str "x")], some 0) := rfl

/-- Claim C2 (amended): when a subscriber callback raises, the dispatch loop
does terminate and deliveries stop: the drain returns exactly the
invocations of the callbacks before the raising one plus the raising
invocation itself, and the exception escapes — the subscribers after it
under the same pattern (`post`), all later patterns (`regRest`), and all
later messages (`rest`) are never reached. -/
theorem callback_raise_aborts_loop (run : κ → PyVal → Option ε)
    (regRest : Registry κ) (m : Msg) (rest : List Msg) (pat sid : String)
    (cb : κ) (pre post : List (String × κ)) (e : ε)
    (hm : topicMatches pat m.topic = true)
    (hpre : ∀ x ∈ pre, run x.2 m.data = none)
    (hcb : run cb m.data = some e) :
    drainQueue run ((pat, pre ++ (sid, cb) :: post) :: regRest) (m :: rest)
      = (pre.map (fun x => ⟨pat, x.1, x.2, m.data⟩)
          ++ [⟨pat, sid, cb, m.data⟩], some e) := by
  have hrc := runCallbacks_abort run pat pre post sid cb m.data e hpre hcb
  simp [drainQueue, dispatchMessage, hm, hrc]

/-- Witness for `callback_raise_aborts_loop`: one healthy subscriber before
the raising one. -/
theorem callback_raise_aborts_loop_witness :
    topicMatches "t" (Msg.mk "t" (PyVal.str "x")).topic = true
    ∧ (∀ x ∈ [(("s0", 0) : String × Nat)],
        (fun (k : Nat) (_ : PyVal) => if k == 1 then some (0 : Nat) else none) x.2
          (Msg.mk "t" (PyVal.str "x")).data = none)
    ∧ drainQueue (fun (k : Nat) (_ : PyVal) => if k == 1 then some (0 : Nat) else none)
        [("t", [("s0", 0), ("s1", 1), ("s2", 2)])]
        [Msg.mk "t" (PyVal.str "x"), Msg.mk "t" (PyVal.str "x")]
      = ([(("s0", 0) : String × Nat)].map
            (fun x => ⟨"t", x.1, x.2, (Msg.mk "t" (PyVal.str "x")).data⟩)
          ++ [⟨"t", "s1", 1, (Msg.mk "t" (PyVal.str "x")).data⟩], some 0) :=
  ⟨by decide, by decide,
    callback_raise_aborts_loop
      (fun (k : Nat) (_ : PyVal) => if k == 1 then some (0 : Nat) else none)
      [] (Msg.mk "t" (PyVal.str "x")) [Msg.mk "t" (PyVal.str "x")] "t" "s1" 1
      [("s0", 0)] [("s2", 2)] 0 (by decide) (by decide) (by decide)⟩

/-- Claim C3: a message whose topic is the empty string, whose topic is not
a string, or whose data key is absent is rejected by `publish`'s validation:
`publish` returns normally (it is a total function — the error is only
logged) and the state is unchanged, so the message reaches neither queue
and no callback can ever be invoked for it. -/
theorem publish_invalid_discards (net : Bool) (st : PubState) (m : RawMsg)
    (h : getField m.topic = PyVal.str ""
      ∨ isStr (getField m.topic) = false ∨ m.data = none) :
    publish net st m = st := by
  have hv : validMsg m = false := by
    rcases h with h | h | h
    · simp [validMsg, h, truthy]
    · simp [validMsg, h]
    · simp [validMsg, h, getField, truthy]
  simp [publish, hv]

/-- Witness for `publish_invalid_discards` on an empty-topic message. -/
theorem publish_invalid_discards_witness :
    (getField (RawMsg.mk (some (PyVal.str "")) (some (PyVal.int 1)) none).topic
        = PyVal.str ""
      ∨ isStr (getField (RawMsg.mk (some (PyVal.str "")) (some (PyVal.int 1)) none).topic)
        = false
      ∨ (RawMsg.mk (some (PyVal.str "")) (some (PyVal.int 1)) none).data = none)
    ∧ publish true (PubState.mk [] [] false)
        (RawMsg.mk (some (PyVal.str "")) (some (PyVal.int 1)) none)
      = PubState.mk [] [] false :=
  ⟨Or.inl rfl,
    publish_invalid_discards true (PubState.mk [] [] false)
      (RawMsg.mk (some (PyVal.str "")) (some (PyVal.int 1)) none) (Or.inl rfl)⟩

/-- Claim C5 (counterexample): without a no-raise proviso the claim fails.
Subscriber `s2` is registered under pattern `"t"`, the pattern matches the
valid message's topic, yet the dispatch invokes `s2` zero times — not
exactly once — because the earlier-registered `s1` raises and the
exception kills the loop (only `queue.Empty` is caught). -/
theorem dispatch_not_once_on_raise_cex :
    lookupSub [("t", [("s1", (1 : Nat)), ("s2", 2)])] "t" "s2" = some 2
    ∧ topicMatches "t" "t" = true
    ∧ validMsg (RawMsg.mk (some (PyVal.str "t")) (some (PyVal.int 5)) none) = true
    ∧ (dispatchMessage
          (fun (k : Nat) (_ : PyVal) => if k == 1 then some (0 : Nat) else none)
          [("t", [("s1", 1), ("s2", 2)])]
          (Msg.mk "t" (getField
            (RawMsg.mk (some (PyVal.str "t")) (some (PyVal.int 5)) none).data))).1.countP
        (fun i => i.pattern == "t" && i.sub == "s2") = 0 := by
  refine ⟨rfl, by decide, rfl, by decide⟩

/-- Claim C5 (amended): a valid published message is enqueued unchanged,
and — provided no subscriber callback raises during its dispatch (a raise
kills the loop, see `callback_raise_aborts_loop`) — the dispatch of it
over a well-formed registry holding a subscription whose pattern matches
its topic invokes that subscription exactly once (counting invocations
carrying its pattern and subscriber id), passing every callback exactly
the message's original data payload, with no exception. -/
theorem dispatch_exactly_once (net : Bool) (st : PubState) (raw : RawMsg)
    (t : String) (run : κ → PyVal → Option ε) (reg : Registry κ)
    (pat sid : String) (cb : κ)
    (hv : validMsg raw = true) (ht : getField raw.topic = PyVal.str t)
    (hwf : WF reg) (hsub : lookupSub reg pat sid = some cb)
    (hm : topicMatches pat t = true) (hok : ∀ c d, run c d = none) :
    (publish net st raw).qin = st.qin ++ [raw]
    ∧ (dispatchMessage run reg (Msg.mk t (getField raw.data))).2 = none
    ∧ (dispatchMessage run reg (Msg.mk t (getField raw.data))).1.countP
        (fun i => i.pattern == pat && i.sub == sid) = 1
    ∧ ∀ i ∈ (dispatchMessage run reg (Msg.mk t (getField raw.data))).1,
        i.arg = getField raw.data := by
  have hd := dispatchMessage_ok run reg (Msg.mk t (getField raw.data)) hok
  refine ⟨by simp [publish, hv], by rw [hd], ?_, ?_⟩
  · rw [hd]
    unfold lookupSub at hsub
    cases hfp : findPat reg pat with
    | none => rw [hfp] at hsub; exact absurd hsub (by simp)
    | some subs =>
      rw [hfp] at hsub
      rw [countP_trace_found reg (Msg.mk t (getField raw.data)) pat sid subs
        hwf.1 hfp hm]
      exact countP_sid_one subs sid cb
        (hwf.2 (pat, subs) (findPat_mem reg pat subs hfp)) hsub
  · rw [hd]
    exact dispatchTrace_arg reg (Msg.mk t (getField raw.data))

/-- Witness for `dispatch_exactly_once`: the spec's §8 scenario — subscribe
`"orders.*"` with id `S1`, publish `{topic: "orders.created", data: 1}`. -/
theorem dispatch_exactly_once_witness :
    validMsg (RawMsg.mk (some (PyVal.str "orders.created")) (some (PyVal.int 1)) none) = true
    ∧ getField (RawMsg.mk (some (PyVal.str "orders.created")) (some (PyVal.int 1)) none).topic
        = PyVal.str "orders.created"
    ∧ WF [("orders.*", [("S1", (7 : Nat))])]
    ∧ lookupSub [("orders.*", [("S1", (7 : Nat))])] "orders.*" "S1" = some 7
    ∧ topicMatches "orders.*" "orders.created" = true
    ∧ (∀ (c : Nat) (d : PyVal),
        (fun (_ : Nat) (_ : PyVal) => (none : Option Nat)) c d = none)
    ∧ ((publish false (PubState.mk [] [] false)
          (RawMsg.mk (some (PyVal.str "orders.created")) (some (PyVal.int 1)) none)).qin
        = [] ++ [RawMsg.mk (some (PyVal.str "orders.created")) (some (PyVal.int 1)) none]
      ∧ (dispatchMessage (fun (_ : Nat) (_ : PyVal) => (none : Option Nat))
          [("orders.*", [("S1", 7)])]
          (Msg.mk "orders.created"
            (getField (RawMsg.mk (some (PyVal.str "orders.created")) (some (PyVal.int 1)) none).data))).2
        = none
      ∧ (dispatchMessage (fun (_ : Nat) (_ : PyVal) => (none : Option Nat))
          [("orders.*", [("S1", 7)])]
          (Msg.mk "orders.created"
            (getField (RawMsg.mk (some (PyVal.str "orders.created")) (some (PyVal.int 1)) none).data))).1.countP
          (fun i => i.pattern == "orders.*" && i.sub == "S1") = 1
      ∧ ∀ i ∈ (dispatchMessage (fun (_ : Nat) (_ : PyVal) => (none : Option Nat))
          [("orders.*", [("S1", 7)])]
          (Msg.mk "orders.created"
            (getField (RawMsg.mk (some (PyVal.str "orders.created")) (some (PyVal.int 1)) none).data))).1,
          i.arg = getField (RawMsg.mk (some (PyVal.str "orders.created")) (some (PyVal.int 1)) none).data) :=
  ⟨rfl, rfl, by decide, rfl, by decide, fun _ _ => rfl,
    dispatch_exactly_once false (PubState.mk [] [] false)
      (RawMsg.mk (some (PyVal.str "orders.created")) (some (PyVal.int 1)) none)
      "orders.created" (fun (_ : Nat) (_ : PyVal) => (none : Option Nat))
      [("orders.*", [("S1", 7)])] "orders.*" "S1" 7
      rfl rfl (by decide) rfl (by decide) (fun _ _ => rfl)⟩

/-- Claim C8: after `stop` returns, the `while self._running` guard of the
worker loop is false (the joined worker exits and is no longer alive), the
topic registry is cleared, and the singleton reference is cleared, so that
obtaining the broker afterwards constructs a fresh instance whose registry
is empty and whose loop is running. -/
theorem stop_resets (b : Broker κ) :
    loopContinues (stop b).1 = false
    ∧ (stop b).1.topics = []
    ∧ (stop b).2 = none
    ∧ getInstance (stop b).2 = (initBroker : Broker κ)
    ∧ (initBroker : Broker κ).topics = []
    ∧ (initBroker : Broker κ).running = true :=
  ⟨rfl, rfl, rfl, rfl, rfl, rfl⟩

/-- Claim C9: a message accepted by validation always reaches the inbound
queue, reaches the outbound network queue exactly when networking is
enabled and its `origin` field reads as `None`, and never reaches the
outbound queue when it carries a string origin. -/
theorem publish_network_relay (net : Bool) (st : PubState) (m : RawMsg)
    (hv : validMsg m = true) :
    (publish net st m).qin = st.qin ++ [m]
    ∧ ((publish net st m).qout = st.qout ++ [m] ↔
        (net = true ∧ isNoneVal (getField m.origin) = true))
    ∧ (∀ s, getField m.origin = PyVal.str s → (publish net st m).qout = st.qout) := by
  refine ⟨by simp [publish, hv], ⟨?_, ?_⟩, ?_⟩
  · intro hq
    by_cases ho : (isNoneVal (getField m.origin) && net) = true
    · obtain ⟨h1, h2⟩ := Bool.and_eq_true .. |>.mp ho
      exact ⟨h2, h1⟩
    · exfalso
      rw [Bool.not_eq_true] at ho
      simp only [publish, hv, if_pos, ho, Bool.false_eq_true, if_false] at hq
      have hlen := congrArg List.length hq
      simp at hlen
  · rintro ⟨hnet, hnone⟩
    simp [publish, hv, hnone, hnet]
  · intro s hs
    have ho : isNoneVal (getField m.origin) = false := by rw [hs]; rfl
    simp [publish, hv, ho]

/-- Witness for `publish_network_relay` on a valid local message with
networking enabled. -/
theorem publish_network_relay_witness :
    validMsg (RawMsg.mk (some (PyVal.str "a.b")) (some (PyVal.int 1)) none) = true
    ∧ ((publish true (PubState.mk [] [] false)
          (RawMsg.mk (some (PyVal.str "a.b")) (some (PyVal.int 1)) none)).qin
        = [] ++ [RawMsg.mk (some (PyVal.str "a.b")) (some (PyVal.int 1)) none]
      ∧ ((publish true (PubState.mk [] [] false)
            (RawMsg.mk (some (PyVal.str "a.b")) (some (PyVal.int 1)) none)).qout
          = [] ++ [RawMsg.mk (some (PyVal.str "a.b")) (some (PyVal.int 1)) none] ↔
          (true = true ∧ isNoneVal (getField
            (RawMsg.mk (some (PyVal.str "a.b")) (some (PyVal.int 1)) none).origin) = true))
      ∧ (∀ s, getField (RawMsg.mk (some (PyVal.str "a.b")) (some (PyVal.int 1)) none).origin
            = PyVal.str s →
          (publish true (PubState.mk [] [] false)
            (RawMsg.mk (some (PyVal.str "a.b")) (some (PyVal.int 1)) none)).qout = [])) :=
  ⟨rfl,
    publish_network_relay true (PubState.mk [] [] false)
      (RawMsg.mk (some (PyVal.str "a.b")) (some (PyVal.int 1)) none) rfl⟩

/-- Claim C10: a present-but-falsy `data` value (`0`, `False`, `""`, `[]`,
`{}` — any value with Python truthiness false) makes `publish` discard the
message exactly as if `data` were absent: the state (both queues) is left
unchanged, equal to the result for the data-less message. -/
theorem publish_falsy_data_discarded (net : Bool) (st : PubState)
    (tf of : Option PyVal) (d : PyVal) (h : truthy d = false) :
    publish net st (RawMsg.mk tf (some d) of) = st
    ∧ publish net st (RawMsg.mk tf (some d) of)
      = publish net st (RawMsg.mk tf none of) := by
  have hv : validMsg (RawMsg.mk tf (some d) of) = false := by
    simp [validMsg, getField, h]
  have hv2 : validMsg (RawMsg.mk tf none of) = false := by
    simp [validMsg, getField, truthy]
  simp [publish, hv, hv2]

/-- Witness for `publish_falsy_data_discarded` at `data = 0` (and also
checking the other falsy examples' truthiness). -/
theorem publish_falsy_data_discarded_witness :
    truthy (PyVal.int 0) = false
    ∧ truthy (PyVal.bool false) = false
    ∧ truthy (PyVal.str "") = false
    ∧ truthy (PyVal.list 0) = false
    ∧ truthy (PyVal.dict 0) = false
    ∧ (publish true (PubState.mk [] [] false)
        (RawMsg.mk (some (PyVal.str "a.b")) (some (PyVal.int 0)) none)
        = PubState.mk [] [] false
      ∧ publish true (PubState.mk [] [] false)
          (RawMsg.mk (some (PyVal.str "a.b")) (some (PyVal.int 0)) none)
        = publish true (PubState.mk [] [] false)
          (RawMsg.mk (some (PyVal.str "a.b")) none none)) :=
  ⟨rfl, rfl, by decide, rfl, rfl,
    publish_falsy_data_discarded true (PubState.mk [] [] false)
      (some (PyVal.str "a.b")) none (PyVal.int 0) rfl⟩

end MessageBroker
